import Mathlib

/-!
Shallow embedding of the `longpoll` Go package (file `longpoll.go`, with the
`AddFeed` variant from the historical snapshots of the same module).

Go maps are embedded as association lists with `mapSet` (insert, replacing any
previous binding for the key) and `mapDelete`; map reads use `List.lookup`,
with Go's zero-value-on-missing-key semantics made explicit via `Option.getD`.
The `interface{}` payload is embedded as `String`; timestamps are explicit
`Int` parameters.  Channel signalling and goroutine interleaving are embedded
by splitting `ListenHandler` at its blocking receive into `listenStart`
(everything up to either the short-circuit drain or the block) and
`listenWake` (the continuation for each possible signal `ABORT` / `TIMEOUT` /
`DONE`); the abort signal sent to a previous connection is reported in the
result.  The random generator behind `GetNewToken` is an explicit stream
`g : Nat → Nat`, with `Intn n` embedded as `g i % n`.
-/

namespace LongPollSpec

/-- Replace-or-insert for an association-list map: Go `m[k] = v`. -/
def mapSet [BEq κ] (m : List (κ × α)) (k : κ) (v : α) : List (κ × α) :=
  (k, v) :: m.filter (fun p => p.1 != k)

/-- Removal for an association-list map: Go `delete(m, k)`. -/
def mapDelete [BEq κ] (m : List (κ × α)) (k : κ) : List (κ × α) :=
  m.filter (fun p => p.1 != k)

/-- Go struct `event {Data interface\x7b\x7d; Feed string; Timestamp int32}`. -/
structure event where
  Data : String
  Feed : String
  Timestamp : Int
  deriving DecidableEq

/-- The whole mutable state of a `LongPoll` value (Go struct `LongPoll`).
Go map types: `clientExist = map[string]bool`, `events = map[int]event`,
`clientToNewEvents = map[string][]int`, `feedToClients = map[string]clientExist`,
`clientToConnection = map[string]int`. -/
structure LongPoll where
  globalClients : List (String × Bool)
  globalEvents : List (Nat × event)
  globalClientToNewEvents : List (String × List Nat)
  globalFeedToClients : List (String × List (String × Bool))
  globalClientToConnection : List (String × Nat)
  globalLastConnection : Nat
  deriving DecidableEq

/-- Go `New(opt NewOptions)`: empty maps, then one feed registration per
requested feed (the snapshot `New()` without options is `New []`). -/
def New (feeds : List String) : LongPoll :=
  { globalClients := []
    globalEvents := []
    globalClientToNewEvents := []
    globalFeedToClients := feeds.foldl (fun acc f => mapSet acc f []) []
    globalClientToConnection := []
    globalLastConnection := 0 }

/-- Go `lp.globalClientToNewEvents[token]` (nil slice when the key is absent). -/
def pendingOf (lp : LongPoll) (t : String) : List Nat :=
  (List.lookup t lp.globalClientToNewEvents).getD []

/-- Whether `t` is a key of feed `f`'s subscriber map inside a raw
`feedToClients` map. -/
def feedHas (m : List (String × List (String × Bool))) (f t : String) : Bool :=
  match List.lookup f m with
  | some cs => (List.lookup t cs).isSome
  | none => false

/-- Whether `t` is a key of feed `f`'s subscriber map
(`lp.globalFeedToClients[f]` has key `t`). -/
def subscriberMem (lp : LongPoll) (f t : String) : Bool :=
  feedHas lp.globalFeedToClients f t

/-- Go `charset` constant inside `GetNewToken`. -/
def charset : List Char :=
  "abcdefghijklmnopqrstuvwxyzABCDEFGHIJKLMNOPQRSTUVWXYZ0123456789".data

/-- Go `GetNewToken(length)`: `length` characters, each
`charset[seededRand.Intn(len(charset))]`, with the random stream explicit. -/
def GetNewToken (g : Nat → Nat) (length : Nat) : String :=
  String.mk ((List.range length).map (fun i =>
    charset.get ⟨g i % charset.length, Nat.mod_lt _ (by decide)⟩))

/-- Result of `SubscribeHandler`: 400 `Missing feed`, 500
`Feed <f> is not available`, or 200 with the `SubscriptionResponse`. -/
inductive SubscribeOut where
  | missingFeed
  | feedNotAvailable (feed : String)
  | ok (token : String) (feeds : List String)
  deriving DecidableEq

/-- Go `for _, feed := range feeds { lp.globalFeedToClients[feed][token] = true }`. -/
def subAllMap (m : List (String × List (String × Bool))) (feeds : List String)
    (token : String) : List (String × List (String × Bool)) :=
  feeds.foldl (fun acc f =>
    mapSet acc f (mapSet ((List.lookup f acc).getD []) token true)) m

/-- Go `SubscribeHandler`: mint a token, record the client as not pending,
validate each feed in order (first missing feed aborts with the 500 error),
then add the token to every requested feed's subscriber map. -/
def SubscribeHandler (lp : LongPoll) (feeds : List String) (g : Nat → Nat) :
    SubscribeOut × LongPoll :=
  if feeds.isEmpty then (.missingFeed, lp)
  else
    let token := GetNewToken g 32
    let lp1 := { lp with globalClients := mapSet lp.globalClients token false }
    match feeds.find? (fun f => (List.lookup f lp1.globalFeedToClients).isNone) with
    | some f => (.feedNotAvailable f, lp1)
    | none =>
        (.ok token feeds,
         { lp1 with globalFeedToClients := subAllMap lp1.globalFeedToClients feeds token })

/-- Go zero value of `event` (what `lp.globalEvents[id]` yields on a missing key). -/
def eventZero : event := { Data := "", Feed := "", Timestamp := 0 }

/-- Go `lp.globalEvents[eventID]` as used by the drain loop of `ListenHandler`. -/
def resolveEvent (lp : LongPoll) (id : Nat) : event :=
  (List.lookup id lp.globalEvents).getD eventZero

/-- Result of the non-blocking prefix of `ListenHandler`.  `abortedPrev` is the
connection id that was sent the `ABORT` signal (Go line
`lp.globalConnectionChannel[previousConnectionIndex] <- "ABORT"`), if any. -/
inductive ListenStartRes where
  | unauthorized
  | blocked (conn : Nat) (abortedPrev : Option Nat)
  | delivered (evs : List event) (abortedPrev : Option Nat)
  deriving DecidableEq

/-- The `ABORT` signal reported by a `ListenStartRes`. -/
def abortSignalOf : ListenStartRes → Option Nat
  | .unauthorized => none
  | .blocked _ p => p
  | .delivered _ p => p

/-- Go `ListenHandler` up to (and excluding) the blocking channel receive:
401 check, connection-counter bump, `ABORT` to any previous connection,
registration of the new connection, then either block (empty pending list,
client marked pending) or short-circuit drain (events fetched, pending list
cleared, connection entry deleted). -/
def listenStart (lp : LongPoll) (token : String) : ListenStartRes × LongPoll :=
  if (List.lookup token lp.globalClients).isSome = false then
    (.unauthorized, lp)
  else
    let currentConnection := lp.globalLastConnection + 1
    let abortedPrev := List.lookup token lp.globalClientToConnection
    let lp1 := { lp with
      globalLastConnection := currentConnection
      globalClientToConnection := mapSet lp.globalClientToConnection token currentConnection }
    if (pendingOf lp1 token).length == 0 then
      (.blocked currentConnection abortedPrev,
       { lp1 with globalClients := mapSet lp1.globalClients token true })
    else
      (.delivered ((pendingOf lp1 token).map (resolveEvent lp1)) abortedPrev,
       { lp1 with
         globalClientToNewEvents := mapSet lp1.globalClientToNewEvents token []
         globalClientToConnection := mapDelete lp1.globalClientToConnection token })

/-- The three string signals a blocked `ListenHandler` can receive. -/
inductive Signal where
  | abort
  | timeout
  | done
  deriving DecidableEq

/-- Result of the continuation of a blocked `ListenHandler`. -/
inductive WakeRes where
  | superseded
  | timedOut
  | delivered (evs : List event)
  deriving DecidableEq

/-- Go `ListenHandler` from the channel receive on: `ABORT` sends 204 and
returns at once; `TIMEOUT` sends 408 and deletes the token's connection entry;
`DONE` falls through to the drain (fetch events, clear pending list, delete
the connection entry).  `conn` is the waking call's `currentConnection`; the
code never consults it after the receive. -/
def listenWake (lp : LongPoll) (token : String) (conn : Nat) (sig : Signal) :
    WakeRes × LongPoll :=
  match sig with
  | .abort => (.superseded, lp)
  | .timeout =>
      (.timedOut,
       { lp with globalClientToConnection := mapDelete lp.globalClientToConnection token })
  | .done =>
      (.delivered ((pendingOf lp token).map (resolveEvent lp)),
       { lp with
         globalClientToNewEvents := mapSet lp.globalClientToNewEvents token []
         globalClientToConnection := mapDelete lp.globalClientToConnection token })

/-- `NewEvent` returns the Go `error` (always `nil`) together with the index
the event was stored under. -/
structure NewEventOut where
  newIndex : Nat
  err : Option String
  deriving DecidableEq

/-- The fanout loop of `NewEvent`:
`for client := range lp.globalFeedToClients[feed] { append newIndex }`. -/
def fanout (pending : List (String × List Nat)) (subs : List String) (idx : Nat) :
    List (String × List Nat) :=
  match subs with
  | [] => pending
  | c :: rest =>
      fanout (mapSet pending c (((List.lookup c pending).getD []) ++ [idx])) rest idx

/-- Go `NewEvent(feed, object)`: store the event under `len(globalEvents)`,
append that index to the pending list of every subscriber of `feed`, return
`nil`.  The spawned `notifyEvent` goroutines are separate trace operations. -/
def NewEvent (lp : LongPoll) (feed : String) (data : String) (ts : Int) :
    NewEventOut × LongPoll :=
  let newIndex := lp.globalEvents.length
  let lp1 := { lp with
    globalEvents := mapSet lp.globalEvents newIndex { Data := data, Feed := feed, Timestamp := ts } }
  let subs := ((List.lookup feed lp1.globalFeedToClients).getD []).map Prod.fst
  (⟨newIndex, none⟩,
   { lp1 with globalClientToNewEvents := fanout lp1.globalClientToNewEvents subs newIndex })

/-- Go `notifyEvent(client)`: if the client is pending and has a registered
connection, send `DONE` to that connection (reported as the first component)
and mark the client not pending. -/
def notifyEvent (lp : LongPoll) (client : String) : Option Nat × LongPoll :=
  if (List.lookup client lp.globalClients).getD false = true then
    match List.lookup client lp.globalClientToConnection with
    | none => (none, lp)
    | some conn =>
        (some conn, { lp with globalClients := mapSet lp.globalClients client false })
  else (none, lp)

/-- Snapshot `AddFeed(feed string)`: unconditionally bind a fresh empty
subscriber map when the name is non-empty; the Go `error` is always `nil`. -/
def AddFeed (lp : LongPoll) (feed : String) : Option String × LongPoll :=
  if 0 < feed.length then
    (none, { lp with globalFeedToClients := mapSet lp.globalFeedToClients feed [] })
  else (none, lp)

/-- One atomic core operation, for the interleaving trace semantics. -/
inductive Op where
  | subscribe (feeds : List String) (g : Nat → Nat)
  | listen (token : String)
  | wake (token : String) (conn : Nat) (sig : Signal)
  | publish (feed : String) (data : String) (ts : Int)
  | notify (client : String)

/-- State transition of one operation. -/
def step (lp : LongPoll) : Op → LongPoll
  | .subscribe feeds g => (SubscribeHandler lp feeds g).2
  | .listen t => (listenStart lp t).2
  | .wake t c s => (listenWake lp t c s).2
  | .publish f d ts => (NewEvent lp f d ts).2
  | .notify c => (notifyEvent lp c).2

/-- Run a list of operations. -/
def run (lp : LongPoll) : List Op → LongPoll
  | [] => lp
  | op :: ops => run (step lp op) ops

/-- States reachable from a fresh instance by some interleaving of the
core operations. -/
def Reachable (lp : LongPoll) : Prop :=
  ∃ feeds ops, run (New feeds) ops = lp

/-- Constant-zero random stream for concrete scenarios. -/
def g0 : Nat → Nat := fun _ => 0

/-- The token `GetNewToken g0 32` mints. -/
def tok0 : String := GetNewToken g0 32

/-- Reachable state: one feed, one subscriber, one blocked listen call. -/
def S2 : LongPoll := run (New ["f1"]) [.subscribe ["f1"] g0, .listen tok0]

/-- Reachable state: one feed, one subscriber, a blocked listen call, then one
publish whose notifier goroutine has not run yet. -/
def S3 : LongPoll :=
  run (New ["f1"]) [.subscribe ["f1"] g0, .listen tok0, .publish "f1" "d" 0]

/-- A listen-call wake moment in which the coordinator record still holds the
waking call's own connection id (the newer call has signalled `ABORT` but not
yet overwritten the record). -/
def lpC3 : LongPoll :=
  { globalClients := [("t", true)]
    globalEvents := []
    globalClientToNewEvents := []
    globalFeedToClients := [("f1", [("t", true)])]
    globalClientToConnection := [("t", 7)]
    globalLastConnection := 7 }

/-- Master reachability invariant: the event log's keys are exactly
`0 .. len-1` (newest first), every feed's subscriber map has no duplicate
keys, and every pending list is strictly increasing and holds only ids of
logged events whose feed the token is subscribed to. -/
structure Inv (lp : LongPoll) : Prop where
  keys : lp.globalEvents.map Prod.fst = (List.range lp.globalEvents.length).reverse
  feedsNodup : ∀ f cs, List.lookup f lp.globalFeedToClients = some cs →
    (cs.map Prod.fst).Nodup
  sorted : ∀ t, (pendingOf lp t).Sorted (· < ·)
  mem : ∀ t, ∀ i ∈ pendingOf lp t,
    ∃ e, List.lookup i lp.globalEvents = some e ∧ subscriberMem lp e.Feed t = true

section MapLemmas

variable {κ : Type} {α : Type} [BEq κ] [LawfulBEq κ]

theorem lookup_filter_ne (m : List (κ × α)) (k k' : κ) (h : k' ≠ k) :
    List.lookup k' (m.filter (fun p => p.1 != k)) = List.lookup k' m := by
  induction m with
  | nil => rfl
  | cons a m ih =>
    obtain ⟨a1, a2⟩ := a
    by_cases hak : a1 = k
    · subst hak
      have hk' : (k' == a1) = false := beq_eq_false_iff_ne.mpr h
      simp [List.filter_cons, List.lookup, hk', ih]
    · have hkeep : (a1 != k) = true := bne_iff_ne.mpr hak
      by_cases hk' : k' = a1
      · subst hk'
        simp [List.filter_cons, hkeep, List.lookup]
      · have : (k' == a1) = false := beq_eq_false_iff_ne.mpr hk'
        simp [List.filter_cons, hkeep, List.lookup, this, ih]

theorem lookup_mapSet_self (m : List (κ × α)) (k : κ) (v : α) :
    List.lookup k (mapSet m k v) = some v := by
  simp [mapSet, List.lookup]

theorem lookup_mapSet_ne (m : List (κ × α)) (k k' : κ) (v : α) (h : k' ≠ k) :
    List.lookup k' (mapSet m k v) = List.lookup k' m := by
  have : (k' == k) = false := beq_eq_false_iff_ne.mpr h
  simp [mapSet, List.lookup, this, lookup_filter_ne m k k' h]

theorem lookup_mapDelete_self (m : List (κ × α)) (k : κ) :
    List.lookup k (mapDelete m k) = none := by
  induction m with
  | nil => rfl
  | cons a m ih =>
    obtain ⟨a1, a2⟩ := a
    by_cases hak : a1 = k
    · subst hak
      simp [mapDelete, List.filter_cons, List.lookup] at ih ⊢
      exact ih
    · have hkeep : (a1 != k) = true := bne_iff_ne.mpr hak
      have : (k == a1) = false := beq_eq_false_iff_ne.mpr (fun hh => hak hh.symm)
      simp [mapDelete, List.filter_cons, hkeep, List.lookup, this] at ih ⊢
      exact ih

theorem lookup_mapDelete_ne (m : List (κ × α)) (k k' : κ) (h : k' ≠ k) :
    List.lookup k' (mapDelete m k) = List.lookup k' m :=
  lookup_filter_ne m k k' h

theorem lookup_isSome_iff_mem (m : List (κ × α)) (k : κ) :
    (List.lookup k m).isSome = true ↔ k ∈ m.map Prod.fst := by
  induction m with
  | nil => simp [List.lookup]
  | cons a m ih =>
    obtain ⟨a1, a2⟩ := a
    by_cases hk : k = a1
    · subst hk
      simp [List.lookup]
    · have : (k == a1) = false := beq_eq_false_iff_ne.mpr hk
      simp [List.lookup, this, ih, hk]

theorem filter_ne_eq_self_of_not_mem (m : List (κ × α)) (k : κ)
    (h : k ∉ m.map Prod.fst) :
    m.filter (fun p => p.1 != k) = m := by
  refine List.filter_eq_self.mpr ?_
  intro p hp
  refine bne_iff_ne.mpr ?_
  intro hpk
  exact h (hpk ▸ List.mem_map_of_mem Prod.fst hp)

theorem mapSet_keys_nodup (m : List (κ × α)) (k : κ) (v : α)
    (h : (m.map Prod.fst).Nodup) :
    ((mapSet m k v).map Prod.fst).Nodup := by
  have hsub : List.Sublist ((m.filter (fun p => p.1 != k)).map Prod.fst) (m.map Prod.fst) :=
    (List.filter_sublist m).map Prod.fst
  refine List.nodup_cons.mpr ⟨?_, hsub.nodup h⟩
  intro hk
  obtain ⟨p, hp, hpk⟩ := List.mem_map.mp hk
  have := List.of_mem_filter hp
  exact absurd hpk (bne_iff_ne.mp this)

end MapLemmas


theorem subAllMap_nil (m : List (String × List (String × Bool))) (tok : String) :
    subAllMap m [] tok = m := rfl

theorem subAllMap_cons (m : List (String × List (String × Bool))) (fd : String)
    (rest : List String) (tok : String) :
    subAllMap m (fd :: rest) tok =
      subAllMap (mapSet m fd (mapSet ((List.lookup fd m).getD []) tok true)) rest tok := rfl

theorem feedHas_subAllMap_mono (feeds : List String) (tok : String)
    (m : List (String × List (String × Bool))) (f t : String)
    (h : feedHas m f t = true) : feedHas (subAllMap m feeds tok) f t = true := by
  induction feeds generalizing m with
  | nil => exact h
  | cons fd rest ih =>
    rw [subAllMap_cons]
    refine ih _ ?_
    by_cases hf : f = fd
    · subst hf
      unfold feedHas at h ⊢
      rw [lookup_mapSet_self]
      cases hcs : List.lookup f m with
      | none => rw [hcs] at h; exact absurd h (by simp)
      | some cs =>
        rw [hcs] at h
        simp only [hcs, Option.getD_some]
        by_cases ht : t = tok
        · subst ht
          rw [lookup_mapSet_self]
          rfl
        · rw [lookup_mapSet_ne _ _ _ _ ht]
          exact h
    · unfold feedHas at h ⊢
      rw [lookup_mapSet_ne _ _ _ _ hf]
      exact h

theorem subAllMap_nodup (feeds : List String) (tok : String)
    (m : List (String × List (String × Bool)))
    (hm : ∀ f cs, List.lookup f m = some cs → (cs.map Prod.fst).Nodup) :
    ∀ f cs, List.lookup f (subAllMap m feeds tok) = some cs → (cs.map Prod.fst).Nodup := by
  induction feeds generalizing m with
  | nil => exact hm
  | cons fd rest ih =>
    rw [subAllMap_cons]
    refine ih _ ?_
    intro f cs hl
    by_cases hf : f = fd
    · subst hf
      rw [lookup_mapSet_self] at hl
      cases hl
      refine mapSet_keys_nodup _ _ _ ?_
      cases hcs : List.lookup f m with
      | none => simp [hcs]
      | some cs1 => simpa [hcs] using hm f cs1 hcs
    · rw [lookup_mapSet_ne _ _ _ _ hf] at hl
      exact hm f cs hl

theorem lookup_fanout (pending : List (String × List Nat)) (subs : List String)
    (idx : Nat) (t : String) (hnd : subs.Nodup) :
    (List.lookup t (fanout pending subs idx)).getD [] =
      if t ∈ subs then (List.lookup t pending).getD [] ++ [idx]
      else (List.lookup t pending).getD [] := by
  induction subs generalizing pending with
  | nil => simp [fanout]
  | cons c rest ih =>
    obtain ⟨hcr, hndr⟩ := List.nodup_cons.mp hnd
    rw [fanout, ih _ hndr]
    by_cases htc : t = c
    · subst htc
      simp [hcr, lookup_mapSet_self, List.mem_cons]
    · rw [lookup_mapSet_ne _ _ _ _ htc]
      by_cases htr : t ∈ rest
      · simp [htr, htc, List.mem_cons]
      · simp [htr, htc, List.mem_cons]

theorem Inv.lookup_event_isSome_iff {lp : LongPoll} (h : Inv lp) (i : Nat) :
    (List.lookup i lp.globalEvents).isSome = true ↔ i < lp.globalEvents.length := by
  rw [lookup_isSome_iff_mem, h.keys, List.mem_reverse, List.mem_range]

theorem Inv.pending_lt {lp : LongPoll} (h : Inv lp) (t : String) (i : Nat)
    (hi : i ∈ pendingOf lp t) : i < lp.globalEvents.length := by
  obtain ⟨e, he, _⟩ := h.mem t i hi
  exact (h.lookup_event_isSome_iff i).mp (by simp [he])

theorem lookup_newFeeds_eq_nil (feeds : List String)
    (acc : List (String × List (String × Bool)))
    (hacc : ∀ f cs, List.lookup f acc = some cs → cs = []) :
    ∀ f cs, List.lookup f (feeds.foldl (fun a fd => mapSet a fd []) acc) = some cs →
      cs = [] := by
  induction feeds generalizing acc with
  | nil => exact hacc
  | cons fd rest ih =>
    refine ih _ ?_
    intro f cs hl
    by_cases hf : f = fd
    · subst hf
      rw [lookup_mapSet_self] at hl
      exact (Option.some.inj hl).symm
    · rw [lookup_mapSet_ne _ _ _ _ hf] at hl
      exact hacc f cs hl

theorem inv_New (feeds : List String) : Inv (New feeds) := by
  refine ⟨rfl, ?_, ?_, ?_⟩
  · intro f cs hl
    have : cs = [] := lookup_newFeeds_eq_nil feeds [] (by intro f cs h; cases h) f cs hl
    simp [this]
  · intro t
    simp [pendingOf, New, List.lookup]
  · intro t i hi
    simp [pendingOf, New, List.lookup] at hi


theorem inv_NewEvent (lp : LongPoll) (f d : String) (ts : Int) (h : Inv lp) :
    Inv (NewEvent lp f d ts).2 := by
  have hfresh : lp.globalEvents.length ∉ lp.globalEvents.map Prod.fst := by
    rw [h.keys, List.mem_reverse, List.mem_range]
    exact Nat.lt_irrefl _
  have hES : mapSet lp.globalEvents lp.globalEvents.length
      (⟨d, f, ts⟩ : event) = (lp.globalEvents.length, (⟨d, f, ts⟩ : event)) :: lp.globalEvents := by
    unfold mapSet
    rw [filter_ne_eq_self_of_not_mem _ _ hfresh]
  have hsubs : (((List.lookup f lp.globalFeedToClients).getD []).map Prod.fst).Nodup := by
    cases hcs : List.lookup f lp.globalFeedToClients with
    | none => simp
    | some cs => simpa using h.feedsNodup f cs hcs
  show Inv
    { lp with
      globalEvents := mapSet lp.globalEvents lp.globalEvents.length ⟨d, f, ts⟩
      globalClientToNewEvents :=
        fanout lp.globalClientToNewEvents
          (((List.lookup f lp.globalFeedToClients).getD []).map Prod.fst)
          lp.globalEvents.length }
  refine ⟨?_, h.feedsNodup, ?_, ?_⟩
  · show (mapSet lp.globalEvents lp.globalEvents.length (⟨d, f, ts⟩ : event)).map Prod.fst = _
    rw [hES]
    simp [List.range_succ, h.keys]
  · intro t
    show ((List.lookup t (fanout lp.globalClientToNewEvents _ _)).getD []).Sorted (· < ·)
    rw [lookup_fanout _ _ _ _ hsubs]
    split
    · show List.Pairwise _ (pendingOf lp t ++ [lp.globalEvents.length])
      rw [List.pairwise_append]
      refine ⟨h.sorted t, List.sorted_singleton _, ?_⟩
      intro x hx y hy
      rw [List.mem_singleton] at hy
      subst hy
      exact h.pending_lt t x hx
    · exact h.sorted t
  · intro t i hi
    replace hi : i ∈ (List.lookup t (fanout lp.globalClientToNewEvents _ _)).getD [] := hi
    rw [lookup_fanout _ _ _ _ hsubs] at hi
    have hold : ∀ j, j ∈ pendingOf lp t →
        ∃ e, List.lookup j (mapSet lp.globalEvents lp.globalEvents.length ⟨d, f, ts⟩) = some e ∧
          feedHas lp.globalFeedToClients e.Feed t = true := by
      intro j hj
      obtain ⟨e, he, hm⟩ := h.mem t j hj
      have hjn : j ≠ lp.globalEvents.length := Nat.ne_of_lt (h.pending_lt t j hj)
      exact ⟨e, by rw [lookup_mapSet_ne _ _ _ _ hjn]; exact he, hm⟩
    by_cases hmemsubs : t ∈ ((List.lookup f lp.globalFeedToClients).getD []).map Prod.fst
    · rw [if_pos hmemsubs] at hi
      rcases List.mem_append.mp hi with hi | hi
      · exact hold i hi
      · rw [List.mem_singleton] at hi
        subst hi
        refine ⟨⟨d, f, ts⟩, lookup_mapSet_self _ _ _, ?_⟩
        show feedHas lp.globalFeedToClients f t = true
        cases hcs : List.lookup f lp.globalFeedToClients with
        | none => rw [hcs] at hmemsubs; simp at hmemsubs
        | some cs =>
            rw [hcs] at hmemsubs
            simp only [Option.getD_some] at hmemsubs
            unfold feedHas
            rw [hcs]
            exact (lookup_isSome_iff_mem cs t).mpr hmemsubs
    · rw [if_neg hmemsubs] at hi
      exact hold i hi

theorem inv_listenStart (lp : LongPoll) (t : String) (h : Inv lp) :
    Inv (listenStart lp t).2 := by
  unfold listenStart
  dsimp only
  split
  · exact h
  · split
    · exact ⟨h.keys, h.feedsNodup, h.sorted, h.mem⟩
    · refine ⟨h.keys, h.feedsNodup, ?_, ?_⟩
      · intro t'
        show ((List.lookup t' (mapSet lp.globalClientToNewEvents t [])).getD []).Sorted (· < ·)
        by_cases ht : t' = t
        · subst ht
          rw [lookup_mapSet_self]
          exact List.sorted_nil
        · rw [lookup_mapSet_ne _ _ _ _ ht]
          exact h.sorted t'
      · intro t' i hi
        replace hi : i ∈ (List.lookup t' (mapSet lp.globalClientToNewEvents t [])).getD [] := hi
        by_cases ht : t' = t
        · subst ht
          rw [lookup_mapSet_self] at hi
          simp at hi
        · rw [lookup_mapSet_ne _ _ _ _ ht] at hi
          exact h.mem t' i hi

theorem inv_listenWake (lp : LongPoll) (t : String) (c : Nat) (sig : Signal)
    (h : Inv lp) : Inv (listenWake lp t c sig).2 := by
  cases sig with
  | abort => exact h
  | timeout => exact ⟨h.keys, h.feedsNodup, h.sorted, h.mem⟩
  | done =>
      refine ⟨h.keys, h.feedsNodup, ?_, ?_⟩
      · intro t'
        show ((List.lookup t' (mapSet lp.globalClientToNewEvents t [])).getD []).Sorted (· < ·)
        by_cases ht : t' = t
        · subst ht
          rw [lookup_mapSet_self]
          exact List.sorted_nil
        · rw [lookup_mapSet_ne _ _ _ _ ht]
          exact h.sorted t'
      · intro t' i hi
        replace hi : i ∈ (List.lookup t' (mapSet lp.globalClientToNewEvents t [])).getD [] := hi
        by_cases ht : t' = t
        · subst ht
          rw [lookup_mapSet_self] at hi
          simp at hi
        · rw [lookup_mapSet_ne _ _ _ _ ht] at hi
          exact h.mem t' i hi

theorem inv_notifyEvent (lp : LongPoll) (c : String) (h : Inv lp) :
    Inv (notifyEvent lp c).2 := by
  unfold notifyEvent
  split
  · split
    · exact h
    · exact ⟨h.keys, h.feedsNodup, h.sorted, h.mem⟩
  · exact h

theorem inv_SubscribeHandler (lp : LongPoll) (feeds : List String) (g : Nat → Nat)
    (h : Inv lp) : Inv (SubscribeHandler lp feeds g).2 := by
  unfold SubscribeHandler
  dsimp only
  split
  · exact h
  · split
    · exact ⟨h.keys, h.feedsNodup, h.sorted, h.mem⟩
    · refine ⟨h.keys, ?_, h.sorted, ?_⟩
      · exact subAllMap_nodup feeds (GetNewToken g 32) _ h.feedsNodup
      · intro t i hi
        obtain ⟨e, he, hm⟩ := h.mem t i hi
        exact ⟨e, he, feedHas_subAllMap_mono feeds (GetNewToken g 32) _ _ _ hm⟩

theorem inv_step (lp : LongPoll) (op : Op) (h : Inv lp) : Inv (step lp op) := by
  cases op with
  | subscribe feeds g => exact inv_SubscribeHandler lp feeds g h
  | listen t => exact inv_listenStart lp t h
  | wake t c s => exact inv_listenWake lp t c s h
  | publish f d ts => exact inv_NewEvent lp f d ts h
  | notify c => exact inv_notifyEvent lp c h

theorem inv_run (lp : LongPoll) (ops : List Op) (h : Inv lp) : Inv (run lp ops) := by
  induction ops generalizing lp with
  | nil => exact h
  | cons op ops ih => exact ih _ (inv_step lp op h)

theorem inv_of_reachable (lp : LongPoll) (h : Reachable lp) : Inv lp := by
  obtain ⟨feeds, ops, rfl⟩ := h
  exact inv_run _ ops (inv_New feeds)



/-- C1: when `PendingEvents(T)` is non-empty at the moment `Listen(T)` is
called (for a known token), the call takes the non-blocking path and returns
status Delivered carrying exactly the buffered events, in order, and the
token's pending list is empty afterwards. -/
theorem listen_shortCircuit_delivers_all (lp : LongPoll) (t : String)
    (hex : (List.lookup t lp.globalClients).isSome = true)
    (hne : pendingOf lp t ≠ []) :
    (listenStart lp t).1 =
      .delivered ((pendingOf lp t).map (resolveEvent lp))
        (List.lookup t lp.globalClientToConnection) ∧
    pendingOf (listenStart lp t).2 t = [] := by
  unfold listenStart
  rw [if_neg (by simp [hex])]
  dsimp only
  rw [if_neg (by simp only [beq_iff_eq, List.length_eq_zero]; exact hne)]
  refine ⟨rfl, ?_⟩
  show (List.lookup t (mapSet lp.globalClientToNewEvents t [])).getD [] = []
  rw [lookup_mapSet_self]
  rfl

/-- C1 witness: the short-circuit at the concrete reachable state `S3`. -/
theorem listen_shortCircuit_delivers_all_w :
    (listenStart S3 tok0).1 =
      .delivered ((pendingOf S3 tok0).map (resolveEvent S3))
        (List.lookup tok0 S3.globalClientToConnection) ∧
    pendingOf (listenStart S3 tok0).2 tok0 = [] :=
  listen_shortCircuit_delivers_all S3 tok0 (by decide) (by decide)

/-- C2 counterexample: feed `b` is not registered in `New [a]`, yet
`NewEvent` returns no error, stores the event under id 0, and reports that
fresh id — publishing to an unknown feed does not fail with UnknownFeed. -/
theorem publish_unknownFeed_cex :
    List.lookup "b" (New ["a"]).globalFeedToClients = none ∧
    (NewEvent (New ["a"]) "b" "p" 0).1.err = none ∧
    (NewEvent (New ["a"]) "b" "p" 0).1.newIndex = 0 ∧
    List.lookup 0 (NewEvent (New ["a"]) "b" "p" 0).2.globalEvents =
      some ⟨"p", "b", 0⟩ := by
  refine ⟨by decide, rfl, rfl, by decide⟩

/-- C2 amended: `NewEvent` never fails — for every feed name, registered or
not, it returns a nil error together with the fresh id `len(globalEvents)`,
stores the event under that id, and for an unregistered feed fans out to no
pending list. -/
theorem newEvent_never_fails (lp : LongPoll) (f d : String) (ts : Int) :
    (NewEvent lp f d ts).1.err = none ∧
    (NewEvent lp f d ts).1.newIndex = lp.globalEvents.length ∧
    List.lookup lp.globalEvents.length (NewEvent lp f d ts).2.globalEvents =
      some ⟨d, f, ts⟩ ∧
    (List.lookup f lp.globalFeedToClients = none →
      (NewEvent lp f d ts).2.globalClientToNewEvents = lp.globalClientToNewEvents) := by
  refine ⟨rfl, rfl, ?_, ?_⟩
  · show List.lookup lp.globalEvents.length
      (mapSet lp.globalEvents lp.globalEvents.length ⟨d, f, ts⟩) = some ⟨d, f, ts⟩
    exact lookup_mapSet_self _ _ _
  · intro hnone
    show fanout lp.globalClientToNewEvents
      (((List.lookup f lp.globalFeedToClients).getD []).map Prod.fst) _ =
        lp.globalClientToNewEvents
    rw [hnone]
    rfl

/-- C2 amended witness: publishing to the unregistered feed `b` leaves every
pending list unchanged. -/
theorem newEvent_never_fails_w :
    (NewEvent (New ["a"]) "b" "p" 0).2.globalClientToNewEvents =
      (New ["a"]).globalClientToNewEvents :=
  (newEvent_never_fails (New ["a"]) "b" "p" 0).2.2.2 (by decide)

/-- C3 counterexample: a state in which the waking call's connection id (7)
still equals the coordinator's current record for the token, yet the `ABORT`
continuation returns Superseded anyway — no connection-id verification is
performed before acting. -/
theorem wake_abort_no_verification_cex :
    List.lookup "t" lpC3.globalClientToConnection = some 7 ∧
    (listenWake lpC3 "t" 7 .abort).1 = .superseded ∧
    (listenWake lpC3 "t" 7 .abort).2 = lpC3 := by
  refine ⟨by decide, rfl, rfl⟩

/-- C3 amended: upon waking from the Aborted signal the older call returns
status Superseded unconditionally and leaves the whole state — in particular
`PendingEvents(token)` and the active-connection record — untouched; it never
compares its connection id against the coordinator's record. -/
theorem wake_abort_unconditional (lp : LongPoll) (t : String) (c : Nat) :
    listenWake lp t c .abort = (.superseded, lp) := rfl

/-- C4 counterexample: at the reachable state `S2` (one blocked listen for
`tok0`), the timeout continuation returns TimedOut and removes the token's
active-connection entry, but the pending flag `globalClients[tok0]` is still
`true` although no listen call is blocked any more. -/
theorem wake_timeout_pending_flag_cex :
    (listenWake S2 tok0 1 .timeout).1 = .timedOut ∧
    List.lookup tok0 (listenWake S2 tok0 1 .timeout).2.globalClients = some true ∧
    List.lookup tok0 (listenWake S2 tok0 1 .timeout).2.globalClientToConnection =
      none := by
  refine ⟨rfl, by decide, by decide⟩

/-- C4 amended: resolving a listen call by timeout returns TimedOut and
removes the token's active-connection entry, but leaves `globalClients`
unchanged — the pending flag is reset only by `notifyEvent`'s Done delivery,
so after TimedOut it stays `true` with no listener blocked. -/
theorem wake_timeout_keeps_flag (lp : LongPoll) (t : String) (c : Nat) :
    (listenWake lp t c .timeout).1 = .timedOut ∧
    (listenWake lp t c .timeout).2.globalClients = lp.globalClients ∧
    (listenWake lp t c .timeout).2.globalClientToConnection =
      mapDelete lp.globalClientToConnection t :=
  ⟨rfl, rfl, rfl⟩

/-- C5 counterexample: subscribing to the unregistered feed `b` fails with
the UnknownFeed error naming `b`, yet the token registry, empty beforehand,
now holds the freshly minted token — validation failure does not leave all
state unchanged. -/
theorem subscribe_partial_state_cex :
    (SubscribeHandler (New ["a"]) ["b"] g0).1 = .feedNotAvailable "b" ∧
    (New ["a"]).globalClients = [] ∧
    (SubscribeHandler (New ["a"]) ["b"] g0).2.globalClients = [(tok0, false)] := by
  refine ⟨by decide, rfl, by decide⟩

/-- C5 amended: when some requested feed is unregistered, subscribe fails
naming the first invalid feed and no feed's subscriber map gains the token,
but the token registry does gain an entry (`pending=false`) for the freshly
minted token, because the registration precedes validation. -/
theorem subscribe_invalid_feed_partial (lp : LongPoll) (feeds : List String)
    (g : Nat → Nat) (f : String)
    (hne : feeds.isEmpty = false)
    (hf : feeds.find? (fun x => (List.lookup x lp.globalFeedToClients).isNone) =
      some f) :
    (SubscribeHandler lp feeds g).1 = .feedNotAvailable f ∧
    (SubscribeHandler lp feeds g).2.globalFeedToClients = lp.globalFeedToClients ∧
    (SubscribeHandler lp feeds g).2.globalClients =
      mapSet lp.globalClients (GetNewToken g 32) false := by
  unfold SubscribeHandler
  rw [if_neg (by simp [hne])]
  dsimp only
  rw [hf]
  exact ⟨rfl, rfl, rfl⟩

/-- C5 amended witness: the failed subscription at the concrete state
`New [a]` with requested feed `b`. -/
theorem subscribe_invalid_feed_partial_w :
    (SubscribeHandler (New ["a"]) ["b"] g0).1 = .feedNotAvailable "b" ∧
    (SubscribeHandler (New ["a"]) ["b"] g0).2.globalFeedToClients =
      (New ["a"]).globalFeedToClients ∧
    (SubscribeHandler (New ["a"]) ["b"] g0).2.globalClients =
      mapSet (New ["a"]).globalClients (GetNewToken g0 32) false :=
  subscribe_invalid_feed_partial (New ["a"]) ["b"] g0 "b" (by decide) (by decide)

/-- C6 counterexample: at `S2` feed `f1` has subscriber `tok0`; registering
`f1` again via `AddFeed` replaces that subscriber map with the empty one
instead of preserving it. -/
theorem addFeed_resets_subscribers_cex :
    List.lookup "f1" S2.globalFeedToClients = some [(tok0, true)] ∧
    List.lookup "f1" (AddFeed S2 "f1").2.globalFeedToClients = some [] := by
  refine ⟨by decide, by decide⟩

/-- C6 amended: `AddFeed` with a non-empty name always succeeds and always
binds a fresh empty subscriber map to the name — re-registering an existing
feed discards its current subscribers rather than leaving them unchanged. -/
theorem addFeed_overwrites (lp : LongPoll) (f : String) (h : 0 < f.length) :
    (AddFeed lp f).1 = none ∧
    List.lookup f (AddFeed lp f).2.globalFeedToClients = some [] := by
  unfold AddFeed
  rw [if_pos h]
  exact ⟨rfl, lookup_mapSet_self _ _ _⟩

/-- C6 amended witness: registering feed `g` on a fresh instance yields the
empty subscriber map. -/
theorem addFeed_overwrites_w :
    (AddFeed (New []) "g").1 = none ∧
    List.lookup "g" (AddFeed (New []) "g").2.globalFeedToClients = some [] :=
  addFeed_overwrites (New []) "g" (by decide)

/-- C7: in every reachable state, every token's pending list is strictly
increasing (publish order of the globally monotone event ids) and holds only
ids of logged events whose feed the token is subscribed to; consequently a
Delivered listen result is exactly the resolution of that list, so it holds
only events of subscribed feeds, in publish order. -/
theorem pending_only_subscribed_in_order (lp : LongPoll) (h : Reachable lp)
    (t : String) :
    (pendingOf lp t).Sorted (· < ·) ∧
    (∀ i ∈ pendingOf lp t, ∃ e, List.lookup i lp.globalEvents = some e ∧
      subscriberMem lp e.Feed t = true) ∧
    (∀ evs prev, (listenStart lp t).1 = .delivered evs prev →
      evs = (pendingOf lp t).map (resolveEvent lp) ∧
      ∀ e ∈ evs, subscriberMem lp e.Feed t = true) := by
  have hinv := inv_of_reachable lp h
  refine ⟨hinv.sorted t, hinv.mem t, ?_⟩
  intro evs prev hdel
  have hevs : evs = (pendingOf lp t).map (resolveEvent lp) := by
    unfold listenStart at hdel
    dsimp only at hdel
    split at hdel
    · cases hdel
    · split at hdel
      · cases hdel
      · injection hdel with h1 h2
        exact h1.symm
  refine ⟨hevs, ?_⟩
  intro e he
  rw [hevs] at he
  obtain ⟨i, hi, rfl⟩ := List.mem_map.mp he
  obtain ⟨e0, he0, hm0⟩ := hinv.mem t i hi
  have : resolveEvent lp i = e0 := by simp [resolveEvent, he0]
  rw [this]
  exact hm0

/-- C7 witness: the invariant at the concrete reachable state `S3`. -/
theorem pending_only_subscribed_in_order_w :
    (pendingOf S3 tok0).Sorted (· < ·) ∧
    (∀ i ∈ pendingOf S3 tok0, ∃ e, List.lookup i S3.globalEvents = some e ∧
      subscriberMem S3 e.Feed tok0 = true) ∧
    (∀ evs prev, (listenStart S3 tok0).1 = .delivered evs prev →
      evs = (pendingOf S3 tok0).map (resolveEvent S3) ∧
      ∀ e ∈ evs, subscriberMem S3 e.Feed tok0 = true) :=
  pending_only_subscribed_in_order S3
    ⟨["f1"], [.subscribe ["f1"] g0, .listen tok0, .publish "f1" "d" 0], rfl⟩ tok0

/-- C8 counterexample: at the reachable state `S3`, `PendingEvents(tok0)`
is non-empty, yet `Listen(tok0)` still sends the Aborted signal to the
previously registered connection 1 before draining and returning Delivered —
the abort step is not skipped when events are buffered. -/
theorem listen_abort_despite_pending_cex :
    pendingOf S3 tok0 = [0] ∧
    List.lookup tok0 S3.globalClientToConnection = some 1 ∧
    (listenStart S3 tok0).1 = .delivered [⟨"d", "f1", 0⟩] (some 1) := by
  refine ⟨by decide, by decide, by decide⟩

/-- C8 amended: for every known token, a listen call signals Aborted to
exactly the previously registered active connection (none when there is
none) regardless of whether `PendingEvents(token)` is empty — the abort of a
previous connection precedes the buffered-events check. -/
theorem listen_signals_prev_unconditionally (lp : LongPoll) (t : String)
    (hex : (List.lookup t lp.globalClients).isSome = true) :
    abortSignalOf (listenStart lp t).1 =
      List.lookup t lp.globalClientToConnection := by
  unfold listenStart
  rw [if_neg (by simp [hex])]
  dsimp only
  split
  · rfl
  · rfl

/-- C8 amended witness: the abort signal at the concrete reachable state
`S3`. -/
theorem listen_signals_prev_unconditionally_w :
    abortSignalOf (listenStart S3 tok0).1 =
      List.lookup tok0 S3.globalClientToConnection :=
  listen_signals_prev_unconditionally S3 tok0 (by decide)

/-- C9: in every reachable state, every id stored in a pending list is a
key of the event log, and the drain's lookup finds exactly the logged event —
the missing-key (zero value) branch is unreachable. -/
theorem pending_ids_logged (lp : LongPoll) (h : Reachable lp) (t : String)
    (i : Nat) (hi : i ∈ pendingOf lp t) :
    ∃ e, List.lookup i lp.globalEvents = some e ∧ resolveEvent lp i = e := by
  obtain ⟨e, he, _⟩ := (inv_of_reachable lp h).mem t i hi
  exact ⟨e, he, by simp [resolveEvent, he]⟩

/-- C9 witness: the logged-id property for the pending id 0 at the concrete
reachable state `S3`. -/
theorem pending_ids_logged_w :
    ∃ e, List.lookup 0 S3.globalEvents = some e ∧ resolveEvent S3 0 = e :=
  pending_ids_logged S3
    ⟨["f1"], [.subscribe ["f1"] g0, .listen tok0, .publish "f1" "d" 0], rfl⟩
    tok0 0 (by decide)

/-- C10: `GetNewToken g n` is a string of exactly `n` characters drawn from
the fixed 62-character alphanumeric charset, and every token minted by a
successful subscribe is `GetNewToken g 32`, hence 32 alphanumeric
characters. -/
theorem getNewToken_alphanumeric (g : Nat → Nat) (n : Nat) :
    charset.length = 62 ∧
    (GetNewToken g n).length = n ∧
    (∀ c ∈ (GetNewToken g n).data, c ∈ charset) ∧
    (∀ lp feeds tok fs, (SubscribeHandler lp feeds g).1 = .ok tok fs →
      tok = GetNewToken g 32) := by
  refine ⟨by decide, ?_, ?_, ?_⟩
  · show ((List.range n).map _).length = n
    simp
  · intro c hc
    replace hc : c ∈ (List.range n).map (fun i =>
        charset.get ⟨g i % charset.length, Nat.mod_lt _ (by decide)⟩) := hc
    obtain ⟨i, hi, rfl⟩ := List.mem_map.mp hc
    exact List.get_mem _ _ _
  · intro lp feeds tok fs hok
    unfold SubscribeHandler at hok
    dsimp only at hok
    split at hok
    · cases hok
    · split at hok
      · cases hok
      · injection hok with h1 h2
        exact h1.symm

/-- C10 witness: the 32-character token minted by the concrete successful
subscription. -/
theorem getNewToken_alphanumeric_w :
    (GetNewToken g0 32).length = 32 ∧ tok0 = GetNewToken g0 32 :=
  ⟨(getNewToken_alphanumeric g0 32).2.1,
   (getNewToken_alphanumeric g0 32).2.2.2 (New ["a"]) ["a"] tok0 ["a"] (by decide)⟩


end LongPollSpec
